import Mathlib

set_option maxRecDepth 8000

/-!
Verification development for the node-hl7-client sources:
`src/builder/modules/rootBase.ts` (RootBase codec and splitter, HL7Outbound
socket machine) and `src/specification/2.7.ts` / `src/specification/generic.ts`
(MSH validation).  Strings are modelled as `List Char`; JavaScript string
primitives (`substring`, `slice`, `indexOf`, `replace` with a string pattern)
are embedded with their exact clamping and first-occurrence semantics.
-/

namespace NodeHL7

/-! ## Delimiter codec (RootBase)

`RootBase`'s constructor assembles a six character delimiter string
`newLine ++ field ++ component ++ repetition ++ escape ++ subcomponent`
(the `Delimiters` enum indexes Segment=0, Field=1, Component=2, Repetition=3,
Escape=4, SubComponent=5).  We model it as a structure of six characters. -/

structure DelimiterSet where
  segment : Char
  field : Char
  component : Char
  repetition : Char
  esc : Char
  subcomponent : Char
deriving DecidableEq

/-- The default delimiter string `'\r|^~\&'` of `RootBase`. -/
def defaultDelims : DelimiterSet :=
  ⟨'\r', '|', '^', '~', '\\', '&'⟩

/-- The single letter chosen by the `switch` in `RootBase.escape`, tried in the
source order Escape, Field, Repetition, Component, SubComponent. -/
def escCode (d : DelimiterSet) (c : Char) : Char :=
  if c = d.esc then 'E'
  else if c = d.field then 'F'
  else if c = d.repetition then 'R'
  else if c = d.component then 'S'
  else if c = d.subcomponent then 'T'
  else ' '

/-- The set of characters matched by `_makeMatchEscape`'s alternation
(escape, field, repetition, component, subcomponent). -/
def IsEscTarget (d : DelimiterSet) (c : Char) : Prop :=
  c = d.esc ∨ c = d.field ∨ c = d.repetition ∨ c = d.component ∨ c = d.subcomponent

instance (d : DelimiterSet) (c : Char) : Decidable (IsEscTarget d c) := by
  unfold IsEscTarget; infer_instance

/-- `RootBase.escape` on a present string: every matched delimiter character is
replaced by the three character sequence escape-char, code letter, escape-char;
all other characters pass through. -/
def escape (d : DelimiterSet) : List Char → List Char
  | [] => []
  | c :: t =>
    (if IsEscTarget d c then [d.esc, escCode d c, d.esc] else [c]) ++ escape d t

/-- Split a list at the first occurrence of `x`: returns the part strictly
before `x` and the part strictly after, or `none` when `x` does not occur. -/
def splitAtChar (x : Char) : List Char → Option (List Char × List Char)
  | [] => none
  | c :: t =>
    if c = x then some ([], t)
    else
      match splitAtChar x t with
      | some (a, r) => some (c :: a, r)
      | none => none

/-- Hex digit value, for the `\Xdd..\` escape sequences. -/
def hexVal (c : Char) : Option Nat :=
  if '0' ≤ c ∧ c ≤ '9' then some (c.toNat - '0'.toNat)
  else if 'a' ≤ c ∧ c ≤ 'f' then some (c.toNat - 'a'.toNat + 10)
  else if 'A' ≤ c ∧ c ≤ 'F' then some (c.toNat - 'A'.toNat + 10)
  else none

/-- Modelled from the spec: `decodeHexString` (in `src/utils/utils.ts`, which is
not among the provided sources) decodes the hex digits between the `X` marker
and the closing escape character into raw bytes. -/
def decodeHexChars : List Char → List Char
  | a :: b :: t =>
    match hexVal a, hexVal b with
    | some hi, some lo => Char.ofNat (16 * hi + lo) :: decodeHexChars t
    | _, _ => []
  | _ => []

/-- The replacement performed by `RootBase.unescape` for one regex match
`<esc><content><esc>`: `match.slice(1, 2)` selects the character at index 1 of
the match (the first content character, or the closing escape character when
the content is empty) and is dispatched by the `switch`. -/
def tokenRepl (d : DelimiterSet) (content : List Char) : List Char :=
  let matchStr := d.esc :: (content ++ [d.esc])
  let code := matchStr.getD 1 d.esc
  if code = 'E' then [d.esc]
  else if code = 'F' then [d.field]
  else if code = 'R' then [d.repetition]
  else if code = 'S' then [d.component]
  else if code = 'T' then [d.subcomponent]
  else if code = 'X' then decodeHexChars ((matchStr.drop 2).take (matchStr.length - 3))
  else if code = 'C' ∨ code = 'H' ∨ code = 'M' ∨ code = 'N' ∨ code = 'Z' then []
  else matchStr

/-- The global replace of `_matchUnescape` (`<esc>[^<esc>]*<esc>`): scan left to
right; on the escape character, the match extends to the next escape character
(if none remains, the rest of the text is left untouched).  Each loop step
consumes at least one character, so `fuel = length` never runs out. -/
def unescapeGo (d : DelimiterSet) : Nat → List Char → List Char
  | 0, s => s
  | _ + 1, [] => []
  | fuel + 1, c :: t =>
    if c = d.esc then
      match splitAtChar d.esc t with
      | some (content, rest) => tokenRepl d content ++ unescapeGo d fuel rest
      | none => c :: t
    else c :: unescapeGo d fuel t

/-- `RootBase.unescape` on a present string, including its fast path for text
without the escape character. -/
def unescape (d : DelimiterSet) (s : List Char) : List Char :=
  if d.esc ∈ s then unescapeGo d s.length s else s

/-! JavaScript level wrappers: `escape`/`unescape` guard `text === null` with
`HL7FatalError(500, ...)`; an `undefined` argument passes that strict-equality
check and the subsequent method access (`text.replace` / `text.includes`)
raises a runtime `TypeError`, not an `HL7FatalError`. -/

/-- A JavaScript argument: `undefined`, `null`, or an actual string. -/
inductive JSText where
  | undef : JSText
  | null : JSText
  | str : List Char → JSText

/-- Modelled from the spec: `HL7FatalError` (in `src/utils/exception.ts`, not
among the provided sources) carries a numeric code and a message; a JavaScript
runtime `TypeError` is the other failure mode reachable here. -/
inductive JSFailure where
  | fatal : Nat → String → JSFailure
  | typeErr : String → JSFailure

def escapeJS (d : DelimiterSet) : JSText → Except JSFailure (List Char)
  | .null => .error (.fatal 500 "text must be passed in escape function.")
  | .undef => .error (.typeErr "TypeError: text.replace is not accessible on undefined")
  | .str s => .ok (escape d s)

def unescapeJS (d : DelimiterSet) : JSText → Except JSFailure (List Char)
  | .null => .error (.fatal 500 "text must be passed in unescape function.")
  | .undef => .error (.typeErr "TypeError: text.includes is not accessible on undefined")
  | .str s => .ok (unescape d s)

/-- Whether a codec result is the fatal missing-value error (an
`HL7FatalError`, which carries a numeric code). -/
def isFatalFailure : Except JSFailure (List Char) → Bool
  | .error (.fatal _ _) => true
  | _ => false

/-! ### Round trip lemmas -/

theorem escCode_ne_esc (d : DelimiterSet)
    (h1 : d.esc ≠ 'E') (h2 : d.esc ≠ 'F') (h3 : d.esc ≠ 'R')
    (h4 : d.esc ≠ 'S') (h5 : d.esc ≠ 'T')
    (c : Char) (h : IsEscTarget d c) : escCode d c ≠ d.esc := by
  unfold escCode
  split_ifs with hc1 hc2 hc3 hc4 hc5
  · exact fun he => h1 he.symm
  · exact fun he => h2 he.symm
  · exact fun he => h3 he.symm
  · exact fun he => h4 he.symm
  · exact fun he => h5 he.symm
  · rcases h with h | h | h | h | h <;> simp_all

theorem tokenRepl_escCode (d : DelimiterSet) (c : Char) (h : IsEscTarget d c) :
    tokenRepl d [escCode d c] = [c] := by
  unfold escCode
  split_ifs with hc1 hc2 hc3 hc4 hc5
  · simp [tokenRepl, hc1]
  · simp [tokenRepl, hc2]
  · simp [tokenRepl, hc3]
  · simp [tokenRepl, hc4]
  · simp [tokenRepl, hc5]
  · exfalso; rcases h with h | h | h | h | h <;> simp_all

theorem unescapeGo_escape (d : DelimiterSet)
    (h1 : d.esc ≠ 'E') (h2 : d.esc ≠ 'F') (h3 : d.esc ≠ 'R')
    (h4 : d.esc ≠ 'S') (h5 : d.esc ≠ 'T') :
    ∀ (s : List Char) (fuel : Nat), (escape d s).length ≤ fuel →
      unescapeGo d fuel (escape d s) = s := by
  intro s
  induction s with
  | nil =>
    intro fuel _
    cases fuel <;> simp [escape, unescapeGo]
  | cons c t ih =>
    intro fuel hf
    by_cases hd : IsEscTarget d c
    · have hesc : escape d (c :: t) = d.esc :: escCode d c :: d.esc :: escape d t := by
        simp [escape, hd]
      rw [hesc] at hf ⊢
      simp only [List.length_cons] at hf
      cases fuel with
      | zero => omega
      | succ f =>
        have hne : escCode d c ≠ d.esc := escCode_ne_esc d h1 h2 h3 h4 h5 c hd
        rw [show unescapeGo d (f + 1) (d.esc :: escCode d c :: d.esc :: escape d t)
              = tokenRepl d [escCode d c] ++ unescapeGo d f (escape d t) by
            simp [unescapeGo, splitAtChar, hne]]
        rw [tokenRepl_escCode d c hd]
        have : (escape d t).length ≤ f := by omega
        rw [ih f this]
        simp
    · have hne : c ≠ d.esc := fun he => hd (Or.inl he)
      have hesc : escape d (c :: t) = c :: escape d t := by
        simp [escape, hd]
      rw [hesc] at hf ⊢
      simp only [List.length_cons] at hf
      cases fuel with
      | zero => omega
      | succ f =>
        simp only [unescapeGo, if_neg hne]
        have : (escape d t).length ≤ f := by omega
        rw [ih f this]

theorem escape_eq_self_of_esc_not_mem (d : DelimiterSet) :
    ∀ s : List Char, d.esc ∉ escape d s → escape d s = s := by
  intro s
  induction s with
  | nil => intro _; rfl
  | cons c t ih =>
    intro hmem
    by_cases hd : IsEscTarget d c
    · exfalso
      apply hmem
      simp [escape, hd]
    · have h1 : escape d (c :: t) = c :: escape d t := by simp [escape, hd]
      rw [h1] at hmem ⊢
      have : d.esc ∉ escape d t := fun h => hmem (List.mem_cons_of_mem _ h)
      rw [ih this]

/-- C1 (amended): `unescape (escape s) = s` for every string, over every
delimiter set whose escape character is none of the five code letters
`E`, `F`, `R`, `S`, `T` (the default set included). -/
theorem escape_unescape_roundTrip (d : DelimiterSet)
    (h1 : d.esc ≠ 'E') (h2 : d.esc ≠ 'F') (h3 : d.esc ≠ 'R')
    (h4 : d.esc ≠ 'S') (h5 : d.esc ≠ 'T') (s : List Char) :
    unescape d (escape d s) = s := by
  unfold unescape
  split_ifs with hmem
  · exact unescapeGo_escape d h1 h2 h3 h4 h5 s _ le_rfl
  · exact escape_eq_self_of_esc_not_mem d s hmem

/-- Witness for C1's amended theorem at the default delimiter set. -/
theorem escape_unescape_roundTrip_witness :
    (defaultDelims.esc ≠ 'E' ∧ defaultDelims.esc ≠ 'F' ∧ defaultDelims.esc ≠ 'R' ∧
      defaultDelims.esc ≠ 'S' ∧ defaultDelims.esc ≠ 'T') ∧
    unescape defaultDelims (escape defaultDelims ['A', '|', 'B']) = ['A', '|', 'B'] :=
  ⟨by decide,
    escape_unescape_roundTrip defaultDelims (by decide) (by decide) (by decide)
      (by decide) (by decide) ['A', '|', 'B']⟩

/-- A delimiter set with all six characters distinct whose escape character is
the code letter `E` (constructible through `ClientBuilderOptions`). -/
def delimsEscE : DelimiterSet :=
  ⟨'\r', '|', '^', '~', 'E', '&'⟩

/-- C1 counterexample: over the delimiter set `'\r|^~E&'` (escape character
`E`), escaping the one character string `"E"` yields `"EEE"`, which unescapes
to `"EE"`, not back to `"E"`. -/
theorem escape_roundTrip_fails_for_escape_E :
    unescape delimsEscE (escape delimsEscE ['E']) = ['E', 'E'] ∧
    unescape delimsEscE (escape delimsEscE ['E']) ≠ ['E'] := by
  constructor
  · decide
  · decide

/-- C2 counterexample: with an `undefined` argument, neither `escape` nor
`unescape` raises the fatal missing-value `HL7FatalError` (the `text === null`
guard does not fire; a runtime `TypeError` is raised instead). -/
theorem escape_undefined_not_fatal_missing :
    isFatalFailure (escapeJS defaultDelims .undef) = false ∧
    isFatalFailure (unescapeJS defaultDelims .undef) = false :=
  ⟨rfl, rfl⟩

/-- C2 (amended): `escape(null)` and `unescape(null)` fail with
`HL7FatalError(500, ...)`; for every present string input no error at all (in
particular no missing-input error) is raised. -/
theorem escape_missing_input_fatal :
    (∀ d : DelimiterSet,
      escapeJS d .null = .error (.fatal 500 "text must be passed in escape function.") ∧
      unescapeJS d .null = .error (.fatal 500 "text must be passed in unescape function.")) ∧
    (∀ (d : DelimiterSet) (s : List Char),
      escapeJS d (.str s) = .ok (escape d s) ∧
      unescapeJS d (.str s) = .ok (unescape d s) ∧
      isFatalFailure (escapeJS d (.str s)) = false ∧
      isFatalFailure (unescapeJS d (.str s)) = false) :=
  ⟨fun _ => ⟨rfl, rfl⟩, fun _ _ => ⟨rfl, rfl, rfl, rfl⟩⟩

/-! ## Segment splitter (`RootBase.split` / `RootBase._getSegIndexes`)

`_getSegIndexes` runs, for each of the five boundary names, the global regex
`(\n|\r|)(NAME)\|` over the data; for each match it adjusts the match index
past a one character `\n`/`\r` prefix (the `\r\n` branch adds two, but a match
is at most one terminator character followed by the name and `|`).  `split`
numerically sorts all collected indexes and slices the data between
consecutive indexes, the final slice extending to the end. -/

/-- `beginsWith pat l` holds iff `pat` occurs at the very start of `l`. -/
def beginsWith : List Char → List Char → Bool
  | [], _ => true
  | _ :: _, [] => false
  | a :: as, b :: bs => if a = b then beginsWith as bs else false

/-- First-occurrence test for a contiguous character sequence, as JavaScript's
`String.includes`/`indexOf` see it. -/
def containsSeq (pat l : List Char) : Bool :=
  (List.range (l.length + 1)).any (fun p => beginsWith pat (l.drop p))

/-- The index pushed by `_getSegIndexes` for a match string `matched` found at
position `p`: the source checks `includes('\r\n')`, then `includes('\n')`,
then `includes('\r')`, bumping the index accordingly. -/
def adjustIdx (matched : List Char) (p : Nat) : Nat :=
  if containsSeq ['\r', '\n'] matched then p + 2
  else if '\n' ∈ matched then p + 1
  else if '\r' ∈ matched then p + 1
  else p

/-- One attempt of the regex `(\n|\r|)(nm)\|` at position `p` of `data`
(alternatives tried in source order: `\n`, `\r`, empty).  Returns the adjusted
index to push and the length of the whole match (which advances `lastIndex`). -/
def matchAt (nm data : List Char) (p : Nat) : Option (Nat × Nat) :=
  if beginsWith ('\n' :: (nm ++ ['|'])) (data.drop p) then
    some (adjustIdx ('\n' :: (nm ++ ['|'])) p, nm.length + 2)
  else if beginsWith ('\r' :: (nm ++ ['|'])) (data.drop p) then
    some (adjustIdx ('\r' :: (nm ++ ['|'])) p, nm.length + 2)
  else if beginsWith (nm ++ ['|']) (data.drop p) then
    some (adjustIdx (nm ++ ['|']) p, nm.length + 1)
  else none

/-- Leftmost regex match at or after position `q` (the `regex.exec` scan from
`lastIndex = q`): the original match position, the adjusted index, and the
match length. -/
def findFrom (nm data : List Char) (q : Nat) : Option (Nat × Nat × Nat) :=
  (List.range (data.length + 1)).findSome? fun p =>
    if p < q then none
    else
      match matchAt nm data p with
      | some (adj, len) => some (p, adj, len)
      | none => none

/-- The `while ((m = regex.exec(data)) != null)` loop for one boundary name:
collect adjusted indexes of successive non-overlapping matches.  Every match
has length at least four, so `fuel = data.length + 1` never runs out. -/
def scanGo (nm data : List Char) : Nat → Nat → List Nat
  | 0, _ => []
  | fuel + 1, q =>
    match findFrom nm data q with
    | none => []
    | some (p, adj, len) => adj :: scanGo nm data fuel (p + len)

/-- All indexes `_getSegIndexes` collects for one boundary name. -/
def segIndexesOf (nm data : List Char) : List Nat :=
  scanGo nm data (data.length + 1) 0

/-- The five boundary names `FHS, BHS, MSH, BTS, FTS`, in source order. -/
def boundaryNames : List (List Char) :=
  [['F', 'H', 'S'], ['B', 'H', 'S'], ['M', 'S', 'H'], ['B', 'T', 'S'], ['F', 'T', 'S']]

/-- The full index list of `_getSegIndexes` (names processed in order, their
indexes appended). -/
def segIndexes (data : List Char) : List Nat :=
  (boundaryNames.map (fun nm => segIndexesOf nm data)).flatten

/-- The numeric ascending sort `getSegIndex.sort((a, b) => parseInt(a) - parseInt(b))`. -/
def sortNat (l : List Nat) : List Nat :=
  List.insertionSort (· ≤ ·) l

/-- The slicing loop of `RootBase.split`: segment `i` is
`data.slice(idx_i, idx_{i+1})`, the final segment `data.slice(idx_last, data.length)`. -/
def buildSegs (data : List Char) : List Nat → List (List Char)
  | [] => []
  | [i] => [(data.drop i).take (data.length - i)]
  | i :: j :: rest => (data.drop i).take (j - i) :: buildSegs data (j :: rest)

/-- `RootBase.split(data, segments)`: pushes the slices onto the accumulator
(default `[]`) and returns it. -/
def split (data : List Char) (segments : List (List Char)) : List (List Char) :=
  segments ++ buildSegs data (sortNat (segIndexes data))

theorem join_buildSegs (data : List Char) :
    ∀ is : List Nat, List.Sorted (· ≤ ·) is →
      (buildSegs data is).flatten = data.drop (is.headD data.length) := by
  intro is
  induction is with
  | nil => intro _; simp [buildSegs, List.drop_length]
  | cons i t ih =>
    intro hs
    cases t with
    | nil =>
      have hlen : (data.drop i).length = data.length - i := List.length_drop i data
      simp only [buildSegs, List.flatten, List.headD]
      rw [← hlen, List.take_length]
      simp
    | cons j rest =>
      have hij : i ≤ j := (List.sorted_cons.mp hs).1 j (List.mem_cons_self j rest)
      have htail : List.Sorted (· ≤ ·) (j :: rest) := (List.sorted_cons.mp hs).2
      simp only [buildSegs, List.flatten_cons, List.headD]
      rw [ih htail]
      simp only [List.headD]
      have hdj : data.drop j = (data.drop i).drop (j - i) := by
        rw [List.drop_drop]
        congr 1
        omega
      rw [hdj, List.take_append_drop]

/-- The input of the spec's splitter example, `"MSH|^~\&|X\rMSH|^~\&|Y"`. -/
def exSplitData : List Char :=
  ['M', 'S', 'H', '|', '^', '~', '\\', '&', '|', 'X', '\r',
   'M', 'S', 'H', '|', '^', '~', '\\', '&', '|', 'Y']

/-- C3 (amended): the segments `split` returns are the contiguous ascending
slices of the input from the first (sorted) boundary offset to the end — their
concatenation is exactly that suffix (empty when no boundary matches, so text
before the first boundary is dropped rather than covered); on the example
input the two segments are `"MSH|^~\&|X\r"` (terminator attached) and
`"MSH|^~\&|Y"`, and their concatenation reconstructs the entire input. -/
theorem split_segments_cover_suffix :
    (∀ data : List Char,
      (split data []).flatten = data.drop ((sortNat (segIndexes data)).headD data.length)) ∧
    split exSplitData [] =
      [['M', 'S', 'H', '|', '^', '~', '\\', '&', '|', 'X', '\r'],
       ['M', 'S', 'H', '|', '^', '~', '\\', '&', '|', 'Y']] ∧
    (split exSplitData []).flatten = exSplitData := by
  refine ⟨?_, ?_, ?_⟩
  · intro data
    have hs : List.Sorted (· ≤ ·) (sortNat (segIndexes data)) :=
      List.sorted_insertionSort _ _
    simp only [split, List.nil_append]
    exact join_buildSegs data _ hs
  · decide
  · decide

/-- C3 counterexample: on input `"Z"` (no boundary name present) `split`
returns no segments at all, so the returned segments do not cover the input. -/
theorem split_does_not_cover_unmatched_input :
    split ['Z'] [] = [] ∧ (split ['Z'] []).flatten ≠ ['Z'] := by
  constructor
  · decide
  · decide

theorem beginsWith_ex : ∀ (a b : List Char), beginsWith a b = true → ∃ t, b = a ++ t := by
  intro a
  induction a with
  | nil => intro b _; exact ⟨b, rfl⟩
  | cons x xs ih =>
    intro b hb
    cases b with
    | nil => simp [beginsWith] at hb
    | cons y ys =>
      simp only [beginsWith] at hb
      split_ifs at hb with hxy
      · obtain ⟨t, ht⟩ := ih ys hb
        exact ⟨t, by simp [hxy, ht]⟩

theorem containsSeq_of_beginsWith_drop (pat data : List Char) (p : Nat)
    (hp : p ≤ data.length) (h : beginsWith pat (data.drop p) = true) :
    containsSeq pat data = true := by
  unfold containsSeq
  rw [List.any_eq_true]
  exact ⟨p, List.mem_range.mpr (by omega), h⟩

theorem matchAt_containsSeq (nm data : List Char) (p : Nat) (adj len : Nat)
    (h : matchAt nm data p = some (adj, len)) (hp : p ≤ data.length) :
    containsSeq (nm ++ ['|']) data = true := by
  unfold matchAt at h
  split_ifs at h with hA hB hC
  · -- matched with a leading newline: nm ++ "|" begins at p + 1
    obtain ⟨t, ht⟩ := beginsWith_ex _ _ hA
    have hlen : p + 1 ≤ data.length := by
      have := congrArg List.length ht
      simp [List.length_drop] at this
      omega
    apply containsSeq_of_beginsWith_drop _ _ (p + 1) hlen
    have : data.drop (p + 1) = (nm ++ ['|']) ++ t := by
      have h1 : data.drop (p + 1) = (data.drop p).drop 1 := by
        rw [List.drop_drop]
      rw [h1, ht]
      simp
    rw [this]
    clear * -
    induction nm with
    | nil => simp [beginsWith]
    | cons c cs ih => simpa [beginsWith] using ih
  · obtain ⟨t, ht⟩ := beginsWith_ex _ _ hB
    have hlen : p + 1 ≤ data.length := by
      have := congrArg List.length ht
      simp [List.length_drop] at this
      omega
    apply containsSeq_of_beginsWith_drop _ _ (p + 1) hlen
    have : data.drop (p + 1) = (nm ++ ['|']) ++ t := by
      have h1 : data.drop (p + 1) = (data.drop p).drop 1 := by
        rw [List.drop_drop]
      rw [h1, ht]
      simp
    rw [this]
    clear * -
    induction nm with
    | nil => simp [beginsWith]
    | cons c cs ih => simpa [beginsWith] using ih
  · exact containsSeq_of_beginsWith_drop _ _ p hp hC

/-- C9: when no boundary name immediately followed by `|` occurs anywhere in
the input, `split` returns its accumulator unchanged (the empty list by
default) — the unmatched input is dropped entirely. -/
theorem split_returns_accumulator_when_no_boundary (data : List Char)
    (h : ∀ nm ∈ boundaryNames, containsSeq (nm ++ ['|']) data = false) :
    ∀ segments : List (List Char), split data segments = segments := by
  have hidx : ∀ nm ∈ boundaryNames, segIndexesOf nm data = [] := by
    intro nm hnm
    have hmatch : ∀ p, matchAt nm data p = none := by
      intro p
      by_cases hp : p ≤ data.length
      · cases hm : matchAt nm data p with
        | none => rfl
        | some v =>
          exfalso
          have := matchAt_containsSeq nm data p v.1 v.2 (by rw [hm]) hp
          rw [h nm hnm] at this
          exact Bool.false_ne_true this
      · cases hm : matchAt nm data p with
        | none => rfl
        | some v =>
          exfalso
          unfold matchAt at hm
          have hdrop : data.drop p = [] := List.drop_eq_nil_of_le (by omega)
          rw [hdrop] at hm
          split_ifs at hm with hA hB hC
          · obtain ⟨t, ht⟩ := beginsWith_ex _ _ hA
            simp at ht
          · obtain ⟨t, ht⟩ := beginsWith_ex _ _ hB
            simp at ht
          · obtain ⟨t, ht⟩ := beginsWith_ex _ _ hC
            simp at ht
    have hfind : ∀ q, findFrom nm data q = none := by
      intro q
      unfold findFrom
      rw [List.findSome?_eq_none_iff]
      intro p _
      rw [hmatch p]
      split_ifs <;> rfl
    unfold segIndexesOf
    cases data.length + 1 with
    | zero => rfl
    | succ f =>
      unfold scanGo
      rw [hfind 0]
  have hmap : boundaryNames.map (fun nm => segIndexesOf nm data)
      = [[], [], [], [], []] := by
    unfold boundaryNames
    simp only [List.map_cons, List.map_nil]
    rw [hidx _ (by decide), hidx _ (by decide), hidx _ (by decide),
      hidx _ (by decide), hidx _ (by decide)]
  have hseg : segIndexes data = [] := by
    unfold segIndexes
    rw [hmap]
    rfl
  intro segments
  unfold split
  rw [hseg]
  simp [sortNat, buildSegs, List.insertionSort]

/-- Witness for C9 on the boundary-free input `"hi"` with a nonempty accumulator. -/
theorem split_returns_accumulator_witness :
    (∀ nm ∈ boundaryNames, containsSeq (nm ++ ['|']) ['h', 'i'] = false) ∧
    split ['h', 'i'] [['x']] = [['x']] :=
  ⟨by decide, split_returns_accumulator_when_no_boundary ['h', 'i'] (by decide) [['x']]⟩

/-! ## MLLP frame decoding (`HL7Outbound.sendMessage`, `'data'` handler)

On each `'data'` event the handler appends the chunk to `_responseBuffer` and
then loops `while (this._responseBuffer !== '')`: it takes
`substring(indexOf(VT), indexOf(FS CR) + 2)` as the candidate message, keeps
`slice(indexOf(FS CR) + 2)` as the new buffer, strips the first header
occurrence, and — if the remainder still contains the footer — strips the
first footer occurrence and (only when a handler was supplied) increments
`stats.acknowledged`, emits `client.acknowledged` with the updated count and
invokes the handler.  JavaScript's `indexOf` returns `-1` on a miss and
`substring` clamps and swaps its arguments, which this model reproduces. -/

/-- Modelled from the spec: `PROTOCOL_MLLP_HEADER` is the single start byte
0x0B (vertical tab); the constant lives in `src/utils/constants.ts`, which is
not among the provided sources. -/
def MLLP_HEADER : List Char := [Char.ofNat 11]

/-- Modelled from the spec: `PROTOCOL_MLLP_FOOTER` is the two byte sequence
0x1C (file separator) followed by carriage return. -/
def MLLP_FOOTER : List Char := [Char.ofNat 28, '\r']

/-- JavaScript `String.indexOf` with a string needle: index of the first
occurrence, `-1` when absent. -/
def indexOfSeq (pat l : List Char) : Int :=
  match (List.range (l.length + 1)).find? (fun p => beginsWith pat (l.drop p)) with
  | some p => (p : Int)
  | none => -1

/-- JavaScript `String.substring(a, b)`: both arguments are clamped into
`[0, length]` and swapped when `a > b`. -/
def jsSubstring (l : List Char) (a b : Int) : List Char :=
  let n : Int := l.length
  let a2 := (min (max a 0) n).toNat
  let b2 := (min (max b 0) n).toNat
  (l.drop (min a2 b2)).take (max a2 b2 - min a2 b2)

/-- JavaScript `String.slice(a, length)`: a negative start counts from the end
of the string. -/
def jsSliceFrom (l : List Char) (a : Int) : List Char :=
  let n : Int := l.length
  if a < 0 then l.drop (max (n + a) 0).toNat else l.drop (min a n).toNat

/-- JavaScript `String.replace` with a string pattern: only the first
occurrence is replaced (here always by the empty string, as in the source). -/
def replaceFirst (pat l : List Char) : List Char :=
  match (List.range (l.length + 1)).find? (fun p => beginsWith pat (l.drop p)) with
  | none => l
  | some p => l.take p ++ l.drop (p + pat.length)

/-- Result of one `'data'` event: extracted frame payloads in arrival order,
the `client.acknowledged` counts emitted (in order), the final value of
`stats.acknowledged`, and the remaining `_responseBuffer`. -/
structure MllpResult where
  frames : List (List Char)
  emits : List Nat
  acknowledged : Nat
  buffer : List Char
deriving DecidableEq

/-- The `while (this._responseBuffer !== '')` loop.  Every iteration drops at
least one character from the buffer (`slice(indexOfFSCR + 2)` with
`indexOfFSCR ≥ -1`), so `fuel = buffer length` never runs out. -/
def mllpLoop (handlerDefined : Bool) : Nat → Nat → List Char → MllpResult
  | 0, ack, buf => ⟨[], [], ack, buf⟩
  | fuel + 1, ack, buf =>
    if buf = [] then ⟨[], [], ack, buf⟩
    else
      let iFSCR := indexOfSeq MLLP_FOOTER buf
      let loaded := jsSubstring buf (indexOfSeq MLLP_HEADER buf) (iFSCR + 2)
      let rest := jsSliceFrom buf (iFSCR + 2)
      let loaded2 := replaceFirst MLLP_HEADER loaded
      if containsSeq MLLP_FOOTER loaded2 then
        let payload := replaceFirst MLLP_FOOTER loaded2
        if handlerDefined then
          let r := mllpLoop handlerDefined fuel (ack + 1) rest
          ⟨payload :: r.frames, (ack + 1) :: r.emits, r.acknowledged, r.buffer⟩
        else
          let r := mllpLoop handlerDefined fuel ack rest
          ⟨payload :: r.frames, r.emits, r.acknowledged, r.buffer⟩
      else
        mllpLoop handlerDefined fuel ack rest

/-- One `'data'` event: append the chunk to the receive buffer, then run the
extraction loop. -/
def onData (handlerDefined : Bool) (ack : Nat) (buffer chunk : List Char) : MllpResult :=
  mllpLoop handlerDefined (buffer ++ chunk).length ack (buffer ++ chunk)

/-- First half of a frame: start marker plus the payload prefix `HELLO`. -/
def chunkA : List Char := Char.ofNat 11 :: ['H', 'E', 'L', 'L', 'O']

/-- Second half of the same frame: payload suffix `WORLD` plus the end marker. -/
def chunkB : List Char := ['W', 'O', 'R', 'L', 'D'] ++ MLLP_FOOTER

/-- C4: evaluating the `'data'` handler on a frame split across two chunks.
After the first chunk (start marker but no end marker) the receive buffer is
empty — the partial bytes are consumed and destroyed, not left buffered — and
when the second chunk arrives only `"WORLD"` is extracted as a frame payload;
the frame is never reassembled into the single payload `"HELLOWORLD"`. -/
theorem mllp_decoder_discards_split_frame :
    (onData true 0 [] chunkA).buffer = [] ∧
    (onData true 0 [] chunkA).buffer ≠ chunkA ∧
    (onData true 0 [] chunkA).frames = [] ∧
    (onData true 0 ((onData true 0 [] chunkA).buffer) chunkB).frames
      = [['W', 'O', 'R', 'L', 'D']] ∧
    (onData true 0 ((onData true 0 [] chunkA).buffer) chunkB).frames
      ≠ [['H', 'E', 'L', 'L', 'O', 'W', 'O', 'R', 'L', 'D']] := by
  refine ⟨?_, ?_, ?_, ?_, ?_⟩ <;> decide

/-- C5 (amended): with a caller-supplied handler present, every extracted
frame increments `stats.acknowledged` exactly once — the final count is the
initial count plus the number of extracted frames, and the
`client.acknowledged` emissions carry exactly the successive updated counts —
while without a handler no increment and no emission happens at all. -/
theorem ack_counted_once_per_frame_iff_handler :
    ∀ (fuel ack : Nat) (buf : List Char),
      ((mllpLoop true fuel ack buf).acknowledged
          = ack + (mllpLoop true fuel ack buf).frames.length ∧
        (mllpLoop true fuel ack buf).emits
          = (List.range (mllpLoop true fuel ack buf).frames.length).map
              (fun i => ack + i + 1)) ∧
      ((mllpLoop false fuel ack buf).acknowledged = ack ∧
        (mllpLoop false fuel ack buf).emits = []) := by
  intro fuel
  induction fuel with
  | zero =>
    intro ack buf
    simp [mllpLoop]
  | succ f ih =>
    intro ack buf
    by_cases hb : buf = []
    · simp [mllpLoop, hb]
    · constructor
      · rw [show mllpLoop true (f + 1) ack buf
              = (if containsSeq MLLP_FOOTER
                    (replaceFirst MLLP_HEADER
                      (jsSubstring buf (indexOfSeq MLLP_HEADER buf)
                        (indexOfSeq MLLP_FOOTER buf + 2))) then
                  let r := mllpLoop true f (ack + 1)
                    (jsSliceFrom buf (indexOfSeq MLLP_FOOTER buf + 2))
                  ⟨(replaceFirst MLLP_FOOTER
                      (replaceFirst MLLP_HEADER
                        (jsSubstring buf (indexOfSeq MLLP_HEADER buf)
                          (indexOfSeq MLLP_FOOTER buf + 2)))) :: r.frames,
                    (ack + 1) :: r.emits, r.acknowledged, r.buffer⟩
                else
                  mllpLoop true f ack
                    (jsSliceFrom buf (indexOfSeq MLLP_FOOTER buf + 2))) by
            simp [mllpLoop, hb]]
        split_ifs with hc
        · have h1 := (ih (ack + 1)
            (jsSliceFrom buf (indexOfSeq MLLP_FOOTER buf + 2))).1
          constructor
          · simp only [List.length_cons]
            rw [h1.1]
            omega
          · simp only [List.length_cons]
            rw [h1.2, List.range_succ_eq_map, List.map_cons, List.map_map]
            congr 1
            apply List.map_congr_left
            intro i _
            simp only [Function.comp_apply]
            omega
        · exact (ih ack (jsSliceFrom buf (indexOfSeq MLLP_FOOTER buf + 2))).1
      · rw [show mllpLoop false (f + 1) ack buf
              = (if containsSeq MLLP_FOOTER
                    (replaceFirst MLLP_HEADER
                      (jsSubstring buf (indexOfSeq MLLP_HEADER buf)
                        (indexOfSeq MLLP_FOOTER buf + 2))) then
                  let r := mllpLoop false f ack
                    (jsSliceFrom buf (indexOfSeq MLLP_FOOTER buf + 2))
                  ⟨(replaceFirst MLLP_FOOTER
                      (replaceFirst MLLP_HEADER
                        (jsSubstring buf (indexOfSeq MLLP_HEADER buf)
                          (indexOfSeq MLLP_FOOTER buf + 2)))) :: r.frames,
                    r.emits, r.acknowledged, r.buffer⟩
                else
                  mllpLoop false f ack
                    (jsSliceFrom buf (indexOfSeq MLLP_FOOTER buf + 2))) by
            simp [mllpLoop, hb]]
        split_ifs with hc
        · exact (ih ack (jsSliceFrom buf (indexOfSeq MLLP_FOOTER buf + 2))).2
        · exact (ih ack (jsSliceFrom buf (indexOfSeq MLLP_FOOTER buf + 2))).2

/-- A complete single-chunk frame carrying the payload `A`. -/
def frameChunkA : List Char := MLLP_HEADER ++ ['A'] ++ MLLP_FOOTER

/-- C5 counterexample: when no caller-supplied handler is present, a complete
frame is extracted from the buffer but the acknowledged counter is not
incremented (it stays 0, not 1) and no `client.acknowledged` event is
emitted. -/
theorem ack_not_counted_without_handler :
    (onData false 0 [] frameChunkA).frames = [['A']] ∧
    (onData false 0 [] frameChunkA).acknowledged = 0 ∧
    (onData false 0 [] frameChunkA).acknowledged
      ≠ (onData false 0 [] frameChunkA).frames.length ∧
    (onData false 0 [] frameChunkA).emits = [] := by
  refine ⟨?_, ?_, ?_, ?_⟩ <;> decide

/-! ## Retry backoff bounds (`HL7Outbound.sendMessage`, `'timeout'` handler)

The handler resolves the bounds as
`retryHigh = typeof opt.retryHigh === 'undefined' ? main.retryHigh : opt.retryLow`
and
`retryLow  = typeof opt.retryLow  === 'undefined' ? main.retryLow  : opt.retryLow`,
then computes `expBackoff(retryLow, retryHigh, retryCount)`.  Note the first
line reads `opt.retryLow` — not `opt.retryHigh` — when the channel-level
`retryHigh` option is set. -/

/-- The upper bound actually passed to `expBackoff` (an `Option` because when
`opt.retryHigh` is set but `opt.retryLow` is not, the result is `undefined`). -/
def resolvedRetryHigh (optRetryLow optRetryHigh : Option Nat) (mainRetryHigh : Nat) : Option Nat :=
  match optRetryHigh with
  | none => some mainRetryHigh
  | some _ => optRetryLow

/-- The lower bound actually passed to `expBackoff`. -/
def resolvedRetryLow (optRetryLow : Option Nat) (mainRetryLow : Nat) : Nat :=
  match optRetryLow with
  | none => mainRetryLow
  | some v => v

/-- Modelled from the spec: `expBackoff` (in `src/utils/utils.ts`, not among
the provided sources) computes an exponential backoff delay from the retry
count, bounded between the given low and high bounds. -/
def expBackoff (low high attempt : Nat) : Nat :=
  min high (low * 2 ^ attempt)

/-- C6: with the channel options `retryLow = 100`, `retryHigh = 5000` both
set, the `'timeout'` handler resolves the upper backoff bound to `100` (the
channel `retryLow`), not to the configured `retryHigh = 5000`; the resulting
delay is pinned at 100 ms at retry count 3, where an upper bound of 5000
would have allowed the exponential value 800. -/
theorem retryHigh_option_ignored_in_backoff :
    resolvedRetryHigh (some 100) (some 5000) 30000 = some 100 ∧
    resolvedRetryHigh (some 100) (some 5000) 30000 ≠ some 5000 ∧
    expBackoff (resolvedRetryLow (some 100) 1000)
      ((resolvedRetryHigh (some 100) (some 5000) 30000).getD 0) 3 = 100 ∧
    expBackoff 100 5000 3 = 800 := by
  refine ⟨?_, ?_, ?_, ?_⟩ <;> decide

/-! ## Socket pool eviction (`HL7Outbound._manageConnections`)

The pool is the `_sockets` map; `_manageConnections` computes the excess
`count = size - maxConnections` (returning when not positive), lists the
entries, sorts them ascending by `lastUsed`, caps `count` at `size - 1`, and
removes the first `count` entries of the sorted list by node id. -/

structure SocketEntry where
  nodeID : Nat
  lastUsed : Nat
deriving DecidableEq

/-- `list.sort((a, b) => a.lastUsed - b.lastUsed)`: ascending, stable. -/
def sortByLastUsed (l : List SocketEntry) : List SocketEntry :=
  List.insertionSort (fun a b => a.lastUsed ≤ b.lastUsed) l

/-- `_removeSocket`: destroys the socket and deletes the map entry by key. -/
def removeSocket (pool : List SocketEntry) (id : Nat) : List SocketEntry :=
  pool.filter (fun e => e.nodeID != id)

/-- `HL7Outbound._manageConnections`. -/
def manageConnections (pool : List SocketEntry) (maxConnections : Nat) : List SocketEntry :=
  if pool.length ≤ maxConnections then pool
  else
    let sorted := sortByLastUsed pool
    let count := min (pool.length - maxConnections) (sorted.length - 1)
    (sorted.take count).foldl (fun p e => removeSocket p e.nodeID) pool

instance : IsTotal SocketEntry (fun a b => a.lastUsed ≤ b.lastUsed) :=
  ⟨fun a b => Nat.le_total a.lastUsed b.lastUsed⟩

instance : IsTrans SocketEntry (fun a b => a.lastUsed ≤ b.lastUsed) :=
  ⟨fun _ _ _ h h2 => Nat.le_trans h h2⟩

theorem foldl_removeSocket (rem : List SocketEntry) :
    ∀ pool : List SocketEntry,
      rem.foldl (fun p e => removeSocket p e.nodeID) pool
        = pool.filter (fun x => rem.all (fun e => x.nodeID != e.nodeID)) := by
  induction rem with
  | nil =>
    intro pool
    simp [List.foldl]
  | cons e rem ih =>
    intro pool
    simp only [List.foldl_cons]
    rw [ih (removeSocket pool e.nodeID)]
    unfold removeSocket
    rw [List.filter_filter]
    apply List.filter_congr
    intro x _
    simp [List.all_cons, Bool.and_comm]

/-- C7: `_manageConnections` leaves the pool alone while its size is within
`maxConnections`; on the example pool A(lastUsed 1), B(2), C(3) with
`maxConnections = 2` it evicts exactly A, leaving [B, C]; and in general (for
distinct node ids) it keeps exactly `max maxConnections 1` entries — never
evicting below one — and every evicted entry has a last-used timestamp no
larger than that of any surviving entry (oldest evicted first). -/
theorem pool_eviction_oldest_first :
    (∀ (pool : List SocketEntry) (maxC : Nat), pool.length ≤ maxC →
      manageConnections pool maxC = pool) ∧
    manageConnections [⟨1, 1⟩, ⟨2, 2⟩, ⟨3, 3⟩] 2 = [⟨2, 2⟩, ⟨3, 3⟩] ∧
    (∀ (pool : List SocketEntry) (maxC : Nat),
      (pool.map SocketEntry.nodeID).Nodup → maxC < pool.length →
      (manageConnections pool maxC).length = max maxC 1 ∧
      ∀ x ∈ manageConnections pool maxC, ∀ y ∈ pool,
        y ∉ manageConnections pool maxC → y.lastUsed ≤ x.lastUsed) := by
  refine ⟨?_, by decide, ?_⟩
  · intro pool maxC hle
    unfold manageConnections
    rw [if_pos hle]
  · intro pool maxC hnd hlt
    have hperm : List.Perm (sortByLastUsed pool) pool := List.perm_insertionSort _ _
    have hsorted : List.Sorted (fun a b => a.lastUsed ≤ b.lastUsed) (sortByLastUsed pool) :=
      List.sorted_insertionSort _ _
    have hlen : (sortByLastUsed pool).length = pool.length := hperm.length_eq
    set cnt := min (pool.length - maxC) ((sortByLastUsed pool).length - 1) with hcnt
    set rem := (sortByLastUsed pool).take cnt with hrem
    set kept := (sortByLastUsed pool).drop cnt with hkept
    have hsplit : rem ++ kept = sortByLastUsed pool := List.take_append_drop cnt _
    have hm : manageConnections pool maxC
        = pool.filter (fun x => rem.all (fun e => x.nodeID != e.nodeID)) := by
      unfold manageConnections
      rw [if_neg (by omega), foldl_removeSocket]
    have hndσ : ((sortByLastUsed pool).map SocketEntry.nodeID).Nodup :=
      ((hperm.map SocketEntry.nodeID).nodup_iff).mpr hnd
    have hdisj : List.Disjoint (rem.map SocketEntry.nodeID) (kept.map SocketEntry.nodeID) := by
      rw [← hsplit, List.map_append] at hndσ
      exact (List.nodup_append.mp hndσ).2.2
    have hkeptPred : ∀ y ∈ kept, (rem.all (fun e => y.nodeID != e.nodeID)) = true := by
      intro y hy
      rw [List.all_eq_true]
      intro e he
      rw [bne_iff_ne]
      intro heq
      exact hdisj (List.mem_map_of_mem SocketEntry.nodeID he)
        (heq ▸ List.mem_map_of_mem SocketEntry.nodeID hy)
    have hremPred : ∀ e ∈ rem, ¬ ((rem.all (fun f => e.nodeID != f.nodeID)) = true) := by
      intro e he hall
      rw [List.all_eq_true] at hall
      have := hall e he
      simp at this
    have hfilterσ : (sortByLastUsed pool).filter (fun x => rem.all (fun e => x.nodeID != e.nodeID))
        = kept := by
      rw [← hsplit, List.filter_append]
      rw [show rem.filter (fun x => rem.all (fun e => x.nodeID != e.nodeID)) = [] by
        rw [List.filter_eq_nil_iff]
        exact hremPred]
      rw [show kept.filter (fun x => rem.all (fun e => x.nodeID != e.nodeID)) = kept by
        rw [List.filter_eq_self]
        exact hkeptPred]
      rfl
    have hpk : List.Perm (manageConnections pool maxC) kept := by
      rw [hm, ← hfilterσ]
      exact (hperm.filter _).symm
    constructor
    · rw [hpk.length_eq, hkept, List.length_drop, hlen]
      omega
    · intro x hx y hy hyn
      have hxk : x ∈ kept := (hpk.mem_iff).mp hx
      have hyσ : y ∈ sortByLastUsed pool := (hperm.mem_iff).mpr hy
      rw [← hsplit, List.mem_append] at hyσ
      rcases hyσ with hyr | hyk
      · rw [← hsplit] at hsorted
        exact (List.pairwise_append.mp hsorted).2.2 y hyr x hxk
      · exact absurd ((hpk.mem_iff).mpr hyk) hyn

/-- Witness for C7's general clauses at the example pool. -/
theorem pool_eviction_witness :
    ((([⟨1, 1⟩, ⟨2, 2⟩, ⟨3, 3⟩] : List SocketEntry).map SocketEntry.nodeID).Nodup ∧
      2 < 3) ∧
    (manageConnections [⟨1, 1⟩, ⟨2, 2⟩, ⟨3, 3⟩] 2).length = max 2 1 :=
  ⟨⟨by decide, by decide⟩,
    (pool_eviction_oldest_first.2.2 [⟨1, 1⟩, ⟨2, 2⟩, ⟨3, 3⟩] 2 (by decide) (by decide)).1⟩

/-! ## MSH validation (`HL7_2_7.checkMSH`, `src/specification/2.7.ts`)

`checkMSH` first requires `msh_9.msh_9_1`, `msh_9.msh_9_2` and `msh_9.msh_9_3`
all to be defined (note: `msh_9_3` is not declared in the
`HL7_MSH_MESSAGE_TYPE` interface of `src/specification/generic.ts`, which only
declares `msh_9_1` and `msh_9_2` — hence the `Option` fields below), then
checks the lengths 3 / 3 / 7, then requires `msh_10` defined with length at
most 199, and finally returns its argument unchanged. -/

/-- The runtime shape of the `msh_9` message-type object: three possibly
absent string subfields. -/
structure MSH9 where
  msh_9_1 : Option String
  msh_9_2 : Option String
  msh_9_3 : Option String
deriving DecidableEq

/-- The runtime shape of the structured header handed to `checkMSH`. -/
structure MSH_2_7 where
  msh_9 : MSH9
  msh_10 : Option String
deriving DecidableEq

/-- `HL7_2_7.checkMSH`, with `throw` embedded as `Except.error` carrying the
exact source message. -/
def checkMSH (m : MSH_2_7) : Except String MSH_2_7 :=
  match m.msh_9.msh_9_1, m.msh_9.msh_9_2, m.msh_9.msh_9_3 with
  | some a, some b, some c =>
    if a.length ≠ 3 then Except.error "MSH.9.1 must be 3 characters in length."
    else if b.length ≠ 3 then Except.error "MSH.9.2 must be 3 characters in length."
    else if c.length ≠ 7 then Except.error "MSH.9.3 must be 7 characters in length."
    else
      match m.msh_10 with
      | none => Except.error "MSH.9.10 must be defined."
      | some t =>
        if t.length > 199 then Except.error "MSH.9.10 must less than 199 characters."
        else Except.ok m
  | _, _, _ => Except.error "MSH.1 must be one character in length."

/-- The validity condition stated by the claim (every required subfield
present and within its length constraint); `checkMSH` is compared against it. -/
def mshRequirementsMet (m : MSH_2_7) : Prop :=
  (∃ a, m.msh_9.msh_9_1 = some a ∧ a.length = 3) ∧
  (∃ b, m.msh_9.msh_9_2 = some b ∧ b.length = 3) ∧
  (∃ c, m.msh_9.msh_9_3 = some c ∧ c.length = 7) ∧
  (∃ t, m.msh_10 = some t ∧ t.length ≤ 199)

/-- C8: `checkMSH` either returns exactly its argument or fails with an error
message; it never returns a different header (no mutation), and it succeeds
precisely when every required subfield is present and satisfies its length
constraint. -/
theorem checkMSH_id_or_error :
    ∀ m : MSH_2_7,
      ((∃ e, checkMSH m = Except.error e) ∨ checkMSH m = Except.ok m) ∧
      (∀ m2, checkMSH m = Except.ok m2 → m2 = m) ∧
      (checkMSH m = Except.ok m ↔ mshRequirementsMet m) := by
  intro m
  obtain ⟨⟨a1, a2, a3⟩, m10⟩ := m
  refine ⟨?_, ?_, ?_⟩
  · cases a1 <;> cases a2 <;> cases a3 <;> cases m10 <;>
      simp only [checkMSH] <;> first
        | exact Or.inl ⟨_, rfl⟩
        | (split_ifs <;> first | exact Or.inl ⟨_, rfl⟩ | exact Or.inr rfl)
  · intro m2
    cases a1 <;> cases a2 <;> cases a3 <;> cases m10 <;>
      simp only [checkMSH] <;> first
        | (intro h; cases h)
        | (split_ifs <;> intro h <;> cases h <;> rfl)
  · cases a1 <;> cases a2 <;> cases a3 <;> cases m10 <;>
      simp [checkMSH, mshRequirementsMet] <;>
      (try split_ifs) <;> simp_all

/-- Witness for C8 at a fully valid header: the requirements hold and
`checkMSH` returns it unchanged. -/
theorem checkMSH_id_or_error_witness :
    mshRequirementsMet
      ⟨⟨some "ADT", some "A01", some "ADT_A01"⟩, some "X123"⟩ ∧
    checkMSH ⟨⟨some "ADT", some "A01", some "ADT_A01"⟩, some "X123"⟩
      = Except.ok ⟨⟨some "ADT", some "A01", some "ADT_A01"⟩, some "X123"⟩ := by
  have hreq : mshRequirementsMet
      ⟨⟨some "ADT", some "A01", some "ADT_A01"⟩, some "X123"⟩ :=
    ⟨⟨"ADT", rfl, rfl⟩, ⟨"A01", rfl, rfl⟩, ⟨"ADT_A01", rfl, rfl⟩,
      ⟨"X123", rfl, by decide⟩⟩
  exact ⟨hreq,
    ((checkMSH_id_or_error ⟨⟨some "ADT", some "A01", some "ADT_A01"⟩, some "X123"⟩).2.2).mpr hreq⟩

/-- A header whose control id `msh_10` is exactly 199 characters long. -/
def mshOk199 : MSH_2_7 :=
  ⟨⟨some "ADT", some "A01", some "ADT_A01"⟩, some (String.mk (List.replicate 199 'Q'))⟩

/-- The same header with a 200 character control id. -/
def mshOver199 : MSH_2_7 :=
  ⟨⟨some "ADT", some "A01", some "ADT_A01"⟩, some (String.mk (List.replicate 200 'Q'))⟩

/-- C10: `checkMSH` accepts a 199 character `msh_10` unchanged and rejects one
of 200 characters (the error fires only for lengths strictly above 199, with
the message `MSH.9.10 must less than 199 characters.`); and it requires the
undeclared third message-type subfield `msh_9_3` to be present and exactly 7
characters long.  In general, with the three `msh_9` subfields present and of
the checked lengths and `msh_10` present, success holds iff
`msh_10.length ≤ 199`. -/
theorem msh10_boundary_and_msh93_required :
    checkMSH mshOk199 = Except.ok mshOk199 ∧
    checkMSH mshOver199 = Except.error "MSH.9.10 must less than 199 characters." ∧
    (∀ m : MSH_2_7, m.msh_9.msh_9_3 = none →
      checkMSH m = Except.error "MSH.1 must be one character in length.") ∧
    (∀ (m : MSH_2_7) (a b c : String), m.msh_9 = ⟨some a, some b, some c⟩ →
      a.length = 3 → b.length = 3 → c.length ≠ 7 →
      checkMSH m = Except.error "MSH.9.3 must be 7 characters in length.") ∧
    (∀ (m : MSH_2_7) (a b c t : String), m.msh_9 = ⟨some a, some b, some c⟩ →
      m.msh_10 = some t → a.length = 3 → b.length = 3 → c.length = 7 →
      (checkMSH m = Except.ok m ↔ t.length ≤ 199)) := by
  refine ⟨rfl, rfl, ?_, ?_, ?_⟩
  · intro m h9
    obtain ⟨⟨a1, a2, a3⟩, m10⟩ := m
    simp only at h9
    subst h9
    cases a1 <;> cases a2 <;> rfl
  · intro m a b c h9 ha hb hc
    obtain ⟨⟨a1, a2, a3⟩, m10⟩ := m
    cases h9
    simp [checkMSH, ha, hb, hc]
  · intro m a b c t h9 h10 ha hb hc
    obtain ⟨⟨a1, a2, a3⟩, m10⟩ := m
    cases h9
    simp only at h10
    subst h10
    simp [checkMSH, ha, hb, hc]

/-- Witness for C10's conditional clauses: the over-length header fails the
`msh_10 ≤ 199` condition, and a header missing `msh_9_3` is rejected. -/
theorem msh10_boundary_witness :
    (mshOver199.msh_9 = ⟨some "ADT", some "A01", some "ADT_A01"⟩ ∧
      mshOver199.msh_10 = some (String.mk (List.replicate 200 'Q'))) ∧
    ¬ checkMSH mshOver199 = Except.ok mshOver199 :=
  ⟨⟨rfl, rfl⟩,
    fun h =>
      absurd ((msh10_boundary_and_msh93_required.2.2.2.2 mshOver199
        "ADT" "A01" "ADT_A01" (String.mk (List.replicate 200 'Q'))
        rfl rfl rfl rfl rfl).mp h) (by decide)⟩

end NodeHL7

